import Mathlib

/-!
Shallow embedding of the `mcp-github` MCP server (TypeScript) for checking
its specification claims.

Sources embedded here:
* `src/utils/helpers.ts` — `parseResponseBody` (with faithful JS promise
  semantics for the un-awaited `res.json()` call).
* `src/api/github-api.ts` (source file `src/unnamed/part_000`) — the
  `GitHubAPI` class: `request`, `requestPaginated`, `addIssueComment`.
* `src/index.ts` (source file `src/unnamed/part_001`) — the tool handlers
  `update_issue`, `update_pull_request`, and the `get_code_changes_by_date`
  pipeline (batched commit-detail fan-out, per-file aggregation, sorting).

Network effects are modelled by passing an explicit oracle (a function from
the dispatched request, or the page URL, to the server's response), and every
modelled operation additionally returns the list of HTTP requests it actually
dispatched, so that claims about "no network call is made" are statements
about that trace.

Machine integers: all counters (line additions/deletions, statuses, page
counts) are JavaScript numbers holding small non-negative integers in the
source; they are modelled as `Nat`.
-/

deriving instance DecidableEq for Except

namespace MCPGitHub

/- ===================== JS string primitives ===================== -/

/-- Prefix test on character lists; model of JS `String.prototype.startsWith`. -/
def hasPrefixL : List Char → List Char → Bool
  | [], _ => true
  | _ :: _, [] => false
  | a :: as, b :: bs => a == b && hasPrefixL as bs

/-- Infix test on character lists; model of JS `String.prototype.includes`. -/
def hasInfixL (needle : List Char) : List Char → Bool
  | [] => needle.isEmpty
  | c :: rest => hasPrefixL needle (c :: rest) || hasInfixL needle rest

/-- Model of JS `s.startsWith(p)`. -/
def strStartsWith (s p : String) : Bool :=
  hasPrefixL p.toList s.toList

/-- Model of JS `s.includes(sub)`. -/
def strIncludes (s sub : String) : Bool :=
  hasInfixL sub.toList s.toList

/-- JS truthiness of an optional string argument: `undefined` and the empty
string are both falsy (`!title` in the handlers is true for either). -/
def jsTruthy : Option String → Bool
  | none => false
  | some s => s != ""

/- ===================== JS object / Map primitives ===================== -/

/-- Association-list lookup with propositional string equality; model of
reading a property of a JS object whose keys are strings. -/
def lookupStr {β : Type} : List (String × β) → String → Option β
  | [], _ => none
  | (k, v) :: rest, key => if k = key then some v else lookupStr rest key

/-- Property assignment `obj[k] = v` on a JS object: an existing key keeps its
position and gets the new value, a new key is appended at the end. -/
def objSet {β : Type} : List (String × β) → String → β → List (String × β)
  | [], k, v => [(k, v)]
  | (k', v') :: rest, k, v =>
    if k' = k then (k', v) :: rest else (k', v') :: objSet rest k v

/-- Object spread `\x7b ...base, ...extra \x7d`: every property of `extra` is
assigned over `base` in order, so `extra` wins on conflicting keys. -/
def objSpread {β : Type} (base extra : List (String × β)) : List (String × β) :=
  extra.foldl (fun acc kv => objSet acc kv.1 kv.2) base

/- ===================== Constants (github-api.ts) ===================== -/

/-- `const GITHUB_API_BASE = 'https://api.github.com'`. -/
def GITHUB_API_BASE : String := "https://api.github.com"

/-- `const AI_COMMENT_IDENTIFIER = '[AI] Generated using MCP\n\n'`. -/
def AI_COMMENT_IDENTIFIER : String := "[AI] Generated using MCP\n\n"

/-- `const USER_AGENT = 'mcp-github/1.0.0'`. -/
def USER_AGENT : String := "mcp-github/1.0.0"

/-- The fixed protocol headers attached by both `request` and
`requestPaginated` before the caller-supplied overrides are spread in. -/
def baseHeaders : List (String × String) :=
  [("Accept", "application/vnd.github.v3+json"),
   ("Content-Type", "application/json"),
   ("User-Agent", USER_AGENT),
   ("X-GitHub-Api-Version", "2022-11-28")]

/- ===================== parseResponseBody (helpers.ts) ===================== -/

/-- The settlement of a JS promise: resolved with a value, or rejected with an
error message. -/
abbrev JsPromise (α : Type) : Type := Except String α

/-- A fetch `Response` as observed by `parseResponseBody`:
`contentType` is `res.headers.get('content-type') ?? ''`;
`jsonResult` is the settlement of the promise returned by `res.json()`
(the parsed value is kept as an opaque token, since no claim inspects JSON
structure); `textResult` is the raw body text with which `res.text()`
resolves. -/
structure JsResponse where
  ok : Bool
  status : Nat
  contentType : String
  jsonResult : JsPromise String
  textResult : String
deriving DecidableEq

/-- A parsed response body: decoded JSON (opaque token) or raw text. -/
inductive BodyVal
  | json (v : String)
  | text (s : String)
deriving DecidableEq

/-- The `try` block of `parseResponseBody`:
`return ct.includes('application/json') ? res.json() : res.text();`.
Per the WHATWG fetch specification, calling `res.json()` or `res.text()`
never throws synchronously — each immediately returns a promise, and a parse
failure surfaces as a rejection of that promise. The `try` block therefore
always completes normally, handing back the (un-awaited) promise. -/
def parseResponseBodyTryBlock (res : JsResponse) : JsPromise BodyVal :=
  if strIncludes res.contentType "application/json" then
    res.jsonResult.map BodyVal.json
  else
    .ok (BodyVal.text res.textResult)

/-- The `catch` block of `parseResponseBody`: log and `return res.text()`. -/
def parseResponseBodyCatchBlock (res : JsResponse) : JsPromise BodyVal :=
  .ok (BodyVal.text res.textResult)

/-- `parseResponseBody` from `src/utils/helpers.ts`. The source returns the
promise produced by `res.json()` from inside `try` WITHOUT `await`; in an
async function the `catch` clause intercepts only synchronous throws of the
`try` block, while a returned promise is adopted as the function's own result.
Since the `try` block never throws synchronously (see
`parseResponseBodyTryBlock`), the `catch` block is unreachable and a JSON
parse rejection becomes a rejection of `parseResponseBody` itself. -/
def parseResponseBody (res : JsResponse) : JsPromise BodyVal :=
  parseResponseBodyTryBlock res

/- ===================== request (github-api.ts) ===================== -/

/-- The JSON payload of a request, as the field list handed to
`JSON.stringify` (serialization itself is claim-irrelevant and not
modelled). All payload fields sent by the embedded operations are
string-valued. -/
abbrev Payload : Type := List (String × String)

/-- Options accepted by `GitHubAPI.request`. -/
structure RequestOptions where
  method : Option String := none
  headers : List (String × String) := []
  body : Option Payload := none

/-- An HTTP request as handed to `fetch`: URL, method, final header object,
and optional JSON payload. -/
structure HttpRequest where
  url : String
  method : String
  headers : List (String × String)
  body : Option Payload
deriving DecidableEq

/-- The single error taxonomy of the client (all are `throw new Error(...)`
in the source; constructors record which `throw` fired):
`authRequired` is `'GitHub authentication required'`;
`api` is `createGitHubError(status, body)`;
`bodyRejection` is a rejection of `parseResponseBody` re-raised by `await`;
`notArray` is `'Expected array response for paginated request'`;
`outOfFuel` is a modelling artifact of the unbounded pagination loop (see
`paginateGo`) and corresponds to no source behaviour. -/
inductive GHError
  | authRequired
  | api (status : Nat) (message : String)
  | bodyRejection (message : String)
  | notArray
  | outOfFuel
deriving DecidableEq

/-- `createGitHubError`'s message argument:
`typeof body === 'string' ? body : JSON.stringify(body)` (the stringified
opaque JSON token is the token itself). -/
def ghErrorMessage : BodyVal → String
  | .text s => s
  | .json v => v

/-- The full message built by `createGitHubError` in `helpers.ts`. -/
def createGitHubErrorMessage (status : Nat) (body : BodyVal) : String :=
  "GitHub API error! Status: " ++ toString status ++ ". Message: " ++ ghErrorMessage body

/-- `url.startsWith('http') ? url : GITHUB_API_BASE + url`. -/
def fullUrlOf (url : String) : String :=
  if strStartsWith url "http" then url else GITHUB_API_BASE ++ url

/-- The header object built by `request` once a token is held: the fixed
protocol headers, spread with the caller's overrides, then
`headers.Authorization = 'Bearer ' + token` assigned on top. -/
def requestHeaders (t : String) (opts : RequestOptions) : List (String × String) :=
  objSet (objSpread baseHeaders opts.headers) "Authorization" ("Bearer " ++ t)

/-- The request `GitHubAPI.request` hands to `fetch`. -/
def mkRequest (t : String) (url : String) (opts : RequestOptions) : HttpRequest :=
  { url := fullUrlOf url
    method := opts.method.getD "GET"
    headers := requestHeaders t opts
    body := opts.body }

/-- `GitHubAPI.request` from `github-api.ts`. Returns the list of requests
dispatched to `fetch` (empty when the auth guard throws first) together with
the result. The guard `if (this.token) ... else throw` runs after the header
object is built but before `fetch` is called, so no request is dispatched
without a credential on this path. -/
def request (token : Option String) (fetchOracle : HttpRequest → JsResponse)
    (url : String) (opts : RequestOptions) :
    List HttpRequest × Except GHError BodyVal :=
  match token with
  | none => ([], .error .authRequired)
  | some t =>
    let req := mkRequest t url opts
    let response := fetchOracle req
    match parseResponseBody response with
    | .error e => ([req], .error (.bodyRejection e))
    | .ok body =>
      if response.ok then ([req], .ok body)
      else ([req], .error (.api response.status (createGitHubErrorMessage response.status body)))

/- ===================== requestPaginated (github-api.ts) ===================== -/

/-- Options accepted by `GitHubAPI.requestPaginated`
(`RequestOptions & PaginationOptions`, destructured as
`const \x7b per_page = 100, max_pages, ...requestOptions \x7d = options`). -/
structure PagOptions where
  method : Option String := none
  headers : List (String × String) := []
  body : Option Payload := none
  per_page : Nat := 100
  max_pages : Option Nat := none

/-- The body of one page's response after `await parseResponseBody`:
either an array of items or some non-array value (opaque token). -/
inductive PagBody (α : Type)
  | arr (items : List α)
  | nonArray (v : String)
deriving DecidableEq

/-- One page response as consumed by the pagination loop: HTTP status data,
the settlement of `await parseResponseBody(response)` (a rejection
propagates, exactly as in `request`), and the `rel="next"` target that
`parseLinkHeader` extracts from the response's `Link` header (`none` when
the header has no `next` relation). -/
structure PageResponse (α : Type) where
  ok : Bool
  status : Nat
  body : JsPromise (PagBody α)
  next : Option String
deriving DecidableEq

/-- `if (max_pages && pageCount > max_pages)`: JS numeric truthiness, so a
`max_pages` of `0` is falsy and imposes no cap. -/
def jsCapHit (maxPages : Option Nat) (pageCount : Nat) : Bool :=
  match maxPages with
  | none => false
  | some m => m != 0 && decide (m < pageCount)

/-- The header object built inside the pagination loop: same fixed headers
and caller spread as `request`, but the `Authorization` assignment is
guarded by `if (this.token)` WITHOUT an `else throw` — a missing credential
silently omits the header instead of failing. -/
def pagHeaders (token : Option String) (opts : PagOptions) : List (String × String) :=
  match token with
  | some t => objSet (objSpread baseHeaders opts.headers) "Authorization" ("Bearer " ++ t)
  | none => objSpread baseHeaders opts.headers

/-- The request one iteration of the pagination loop hands to `fetch`. -/
def mkPageRequest (token : Option String) (opts : PagOptions) (currentUrl : String) :
    HttpRequest :=
  { url := fullUrlOf currentUrl
    method := opts.method.getD "GET"
    headers := pagHeaders token opts
    body := opts.body }

/-- `createGitHubError`'s body argument inside the pagination loop, reduced
to the opaque message token (`JSON.stringify` of the parsed body). -/
def pagBodyVal {α : Type} : PagBody α → BodyVal
  | .arr _ => .json "array"
  | .nonArray v => .json v

/-- The `while (currentUrl)` loop of `requestPaginated`. The loop in the
source is unbounded, so the model carries explicit `fuel`; exhausting it
yields the artificial `GHError.outOfFuel` and corresponds to no source
behaviour (every theorem below holds for all sufficiently large fuel).
Per iteration: an empty `currentUrl` exits; `pageCount` is incremented; the
`max_pages` cap breaks out BEFORE the fetch; otherwise the page is fetched
(recorded in the trace), a body rejection or non-2xx status aborts with an
error, a non-array body aborts with `notArray`, and otherwise the items are
appended in order and `currentUrl` becomes `links.next || ''`. -/
def paginateGo {α : Type} (token : Option String) (server : String → PageResponse α)
    (opts : PagOptions) :
    Nat → String → Nat → List α → List HttpRequest × Except GHError (List α)
  | 0, _, _, _ => ([], .error .outOfFuel)
  | fuel + 1, currentUrl, pageCount, acc =>
    if currentUrl = "" then ([], .ok acc)
    else
      let pageCount := pageCount + 1
      if jsCapHit opts.max_pages pageCount then ([], .ok acc)
      else
        let req := mkPageRequest token opts currentUrl
        let resp := server (fullUrlOf currentUrl)
        match resp.body with
        | .error e => ([req], .error (.bodyRejection e))
        | .ok b =>
          if resp.ok then
            match b with
            | .nonArray _ => ([req], .error .notArray)
            | .arr items =>
              let nextUrl := resp.next.getD ""
              let rest := paginateGo token server opts fuel nextUrl pageCount (acc ++ items)
              (req :: rest.1, rest.2)
          else ([req], .error (.api resp.status (createGitHubErrorMessage resp.status (pagBodyVal b))))

/-- `GitHubAPI.requestPaginated`: appends the `per_page` query parameter
(`?` or `&` depending on whether the URL already has a query) and runs the
page loop from the resulting URL with `pageCount = 0` and an empty
accumulator. -/
def requestPaginated {α : Type} (token : Option String)
    (server : String → PageResponse α) (url : String) (opts : PagOptions)
    (fuel : Nat) : List HttpRequest × Except GHError (List α) :=
  let sep := if strIncludes url "?" then "&" else "?"
  let url0 := url ++ sep ++ "per_page=" ++ toString opts.per_page
  paginateGo token server opts fuel url0 0 []

/- ===================== Facade operations (github-api.ts) ===================== -/

/-- `GitHubAPI.addIssueComment`: POSTs to
`/repos/OWNER/REPO/issues/N/comments` with payload
`\x7b body: AI_COMMENT_IDENTIFIER + body \x7d` — the provenance marker is
prepended unconditionally. -/
def addIssueComment (token : Option String) (fetchOracle : HttpRequest → JsResponse)
    (owner repo : String) (issueNumber : Nat) (body : String) :
    List HttpRequest × Except GHError BodyVal :=
  request token fetchOracle
    ("/repos/" ++ owner ++ "/" ++ repo ++ "/issues/" ++ toString issueNumber ++ "/comments")
    { method := some "POST"
      body := some [("body", AI_COMMENT_IDENTIFIER ++ body)] }

/-- `GitHubAPI.updateIssue`: PATCH with the caller-assembled partial update
payload. -/
def updateIssue (token : Option String) (fetchOracle : HttpRequest → JsResponse)
    (owner repo : String) (issueNumber : Nat) (updates : Payload) :
    List HttpRequest × Except GHError BodyVal :=
  request token fetchOracle
    ("/repos/" ++ owner ++ "/" ++ repo ++ "/issues/" ++ toString issueNumber)
    { method := some "PATCH", body := some updates }

/-- `GitHubAPI.updatePullRequest`: PATCH with the caller-assembled partial
update payload. -/
def updatePullRequest (token : Option String) (fetchOracle : HttpRequest → JsResponse)
    (owner repo : String) (pullNumber : Nat) (updates : Payload) :
    List HttpRequest × Except GHError BodyVal :=
  request token fetchOracle
    ("/repos/" ++ owner ++ "/" ++ repo ++ "/pulls/" ++ toString pullNumber)
    { method := some "PATCH", body := some updates }

/- ===================== Tool handlers (index.ts) ===================== -/

/-- The observable outcome of an update tool handler. The source always
returns a single text content block; the short-circuit and catch branches
carry their exact message text, while the success branch's text is formatted
from fields of the parsed response body (presentation only, carried here as
the body it is formatted from). -/
inductive ToolOutcome
  | nothingToUpdate (msg : String)
  | success (body : BodyVal)
  | errorText (msg : String)
deriving DecidableEq

/-- The message of each `GHError` as read by the handlers'
`error instanceof Error ? error.message : ...` (for the modelling artifact
`outOfFuel` an arbitrary fixed string). -/
def ghMessage : GHError → String
  | .authRequired => "GitHub authentication required"
  | .api _ m => m
  | .bodyRejection m => m
  | .notArray => "Expected array response for paginated request"
  | .outOfFuel => "out of fuel"

/-- The `updates` object assembled by the `update_issue` handler:
`if (title) updates.title = title;` etc., in source order (title, body,
state). An omitted or empty-string field is falsy and contributes nothing. -/
def issueUpdatesPayload (title body state : Option String) : Payload :=
  (if jsTruthy title then [("title", title.getD "")] else []) ++
  (if jsTruthy body then [("body", body.getD "")] else []) ++
  (if jsTruthy state then [("state", state.getD "")] else [])

/-- The `update_issue` tool handler: short-circuits with the
"Nothing to update" text when `!title && !body && !state`, otherwise PATCHes
the assembled partial payload and catches any error into an error text. -/
def updateIssueHandler (token : Option String) (fetchOracle : HttpRequest → JsResponse)
    (owner repo : String) (issueNumber : Nat) (title body state : Option String) :
    List HttpRequest × ToolOutcome :=
  if !jsTruthy title && !jsTruthy body && !jsTruthy state then
    ([], .nothingToUpdate "⚠️ Nothing to update. Please specify at least one field (title, body, or state).")
  else
    match updateIssue token fetchOracle owner repo issueNumber (issueUpdatesPayload title body state) with
    | (tr, .ok b) => (tr, .success b)
    | (tr, .error e) => (tr, .errorText ("❌ Error updating issue: " ++ ghMessage e))

/-- The `updates` object assembled by the `update_pull_request` handler, in
source order (title, body, state, base). -/
def prUpdatesPayload (title body state base : Option String) : Payload :=
  (if jsTruthy title then [("title", title.getD "")] else []) ++
  (if jsTruthy body then [("body", body.getD "")] else []) ++
  (if jsTruthy state then [("state", state.getD "")] else []) ++
  (if jsTruthy base then [("base", base.getD "")] else [])

/-- The `update_pull_request` tool handler: short-circuits when
`!title && !body && !state && !base`, otherwise PATCHes the assembled
partial payload. -/
def updatePullRequestHandler (token : Option String) (fetchOracle : HttpRequest → JsResponse)
    (owner repo : String) (prNumber : Nat) (title body state base : Option String) :
    List HttpRequest × ToolOutcome :=
  if !jsTruthy title && !jsTruthy body && !jsTruthy state && !jsTruthy base then
    ([], .nothingToUpdate "⚠️ Nothing to update. Please specify at least one field.")
  else
    match updatePullRequest token fetchOracle owner repo prNumber (prUpdatesPayload title body state base) with
    | (tr, .ok b) => (tr, .success b)
    | (tr, .error e) => (tr, .errorText ("❌ Error updating pull request: " ++ ghMessage e))

/- ============ get_code_changes_by_date pipeline (index.ts) ============ -/

/-- One entry of a commit detail's `files` array (GitHub `CommitFile`),
restricted to the fields the aggregation reads. -/
structure FileChange where
  filename : String
  additions : Nat
  deletions : Nat
  changes : Nat
  status : String
deriving DecidableEq

/-- A commit reference from phase 1 (`getCommitsByDateRange`), restricted to
the fields the handler reads. -/
structure Commit where
  sha : String
  message : String
  authorName : String
  authorDate : String
deriving DecidableEq

/-- A commit detail from phase 2 (`getCommit`): the commit's fields plus the
optional `files` array. `files = none` models a response without a `files`
property (skipped by `if (!detail.files) continue`); the degraded stand-in
produced on a failed fetch has `files = some []` (an empty array is truthy
in JS, so it is NOT skipped — it just contributes nothing). -/
structure CommitDetail where
  sha : String
  message : String
  authorName : String
  authorDate : String
  files : Option (List FileChange)
deriving DecidableEq

/-- `const BATCH_SIZE = 10`. -/
def BATCH_SIZE : Nat := 10

/-- The degraded record `\x7b ...commit, files: [] \x7d` built in the
`catch` of each batched fetch. -/
def degrade (c : Commit) : CommitDetail :=
  { sha := c.sha, message := c.message, authorName := c.authorName
    authorDate := c.authorDate, files := some [] }

/-- One batched fetch: `await githubAPI.getCommit(owner, repo, commit.sha)`
with its per-item `catch` converting any failure into the degraded record.
The fetch itself is an oracle from the commit sha to the settled result of
`getCommit` (its JSON decoding is outside the model). -/
def getCommitOrDegrade (fetchCommit : String → Except GHError CommitDetail)
    (c : Commit) : CommitDetail :=
  match fetchCommit c.sha with
  | .ok d => d
  | .error _ => degrade c

/-- Phase 2's batch loop: `for (let i = 0; i < commits.length; i += BATCH_SIZE)`
slices the input into consecutive batches of `BATCH_SIZE`, maps the
fetch-or-degrade step over each batch (`Promise.all` settles them in input
order), and appends each batch's results to the accumulator. The inter-batch
`setTimeout` pacing delay has no observable effect on the produced data and
is not modelled. -/
def fetchCommitDetails (step : Commit → CommitDetail) : List Commit → List CommitDetail
  | [] => []
  | c :: rest =>
    ((c :: rest).take BATCH_SIZE).map step ++
      fetchCommitDetails step ((c :: rest).drop BATCH_SIZE)
termination_by l => l.length
decreasing_by simp [List.length_drop, BATCH_SIZE]; omega

/-- The per-filename record of phase 3's `fileChangesMap`; `status` is the
JS `Set` of distinct status strings in insertion order. -/
structure FileStat where
  additions : Nat
  deletions : Nat
  changes : Nat
  status : List String
deriving DecidableEq

/-- `Set.prototype.add`: appends the element unless already present. -/
def addStatus (s : List String) (x : String) : List String :=
  if x ∈ s then s else s ++ [x]

/-- The running state of phase 3: the three grand totals and the
insertion-ordered `fileChangesMap`. -/
structure AggState where
  totalAdditions : Nat
  totalDeletions : Nat
  totalChanges : Nat
  fileMap : List (String × FileStat)
deriving DecidableEq

/-- `fileChangesMap.get`/`set` for one file entry: an existing key is updated
in place (JS `Map` preserves insertion order on update), a new key is
appended. -/
def insertFile : List (String × FileStat) → FileChange → List (String × FileStat)
  | [], f => [(f.filename, ⟨f.additions, f.deletions, f.changes, [f.status]⟩)]
  | (k, st) :: rest, f =>
    if k = f.filename then
      (k, ⟨st.additions + f.additions, st.deletions + f.deletions,
           st.changes + f.changes, addStatus st.status f.status⟩) :: rest
    else (k, st) :: insertFile rest f

/-- The body of phase 3's inner loop `for (const file of detail.files)`:
bump the three totals and fold the file into `fileChangesMap`. -/
def applyFile (acc : AggState) (f : FileChange) : AggState :=
  { totalAdditions := acc.totalAdditions + f.additions
    totalDeletions := acc.totalDeletions + f.deletions
    totalChanges := acc.totalChanges + f.changes
    fileMap := insertFile acc.fileMap f }

/-- Phase 3's outer loop body for one detail:
`if (!detail.files) continue;` then the inner loop over its files. -/
def aggregateStep (acc : AggState) (d : CommitDetail) : AggState :=
  match d.files with
  | none => acc
  | some fs => fs.foldl applyFile acc

/-- Phase 3 in full: fold every commit detail into the totals and the
per-filename map, starting from zero totals and an empty map. -/
def aggregate (ds : List CommitDetail) : AggState :=
  ds.foldl aggregateStep ⟨0, 0, 0, []⟩

/-- One element of phase 4's `filesArray`:
`\x7b filename, ...stats, status: Array.from(stats.status).join(', ') \x7d`. -/
structure FileEntry where
  filename : String
  additions : Nat
  deletions : Nat
  changes : Nat
  status : String
deriving DecidableEq

/-- Phase 4's `filesArray` before sorting: the map entries in insertion
order, with the status set rendered as a comma-joined string. -/
def filesArray (ds : List CommitDetail) : List FileEntry :=
  (aggregate ds).fileMap.map fun p =>
    ⟨p.1, p.2.additions, p.2.deletions, p.2.changes, String.intercalate ", " p.2.status⟩

/-- The sort order of `.sort((a, b) => b.changes - a.changes)`: `a` may
precede `b` exactly when `b.changes ≤ a.changes` (descending). -/
def byChangesDesc (a b : FileEntry) : Bool :=
  decide (b.changes ≤ a.changes)

/-- Phase 4's sorted `filesArray`. `Array.prototype.sort` is stable per the
ECMAScript specification, and for a consistent comparator a stable sort's
output is uniquely determined, so the stable `List.mergeSort` models it
exactly. -/
def sortedFilesArray (ds : List CommitDetail) : List FileEntry :=
  List.mergeSort (filesArray ds) byChangesDesc

/-- The filenames of all file entries of all details, in traversal order
(details in order, each detail's files in order; a detail without a `files`
property contributes nothing). -/
def flatFiles : List CommitDetail → List FileChange
  | [] => []
  | d :: rest => d.files.getD [] ++ flatFiles rest

/-- First-appearance deduplication: keeps the first occurrence of each
element, in order. -/
def dedupFirst (l : List String) : List String :=
  l.foldl (fun acc x => if x ∈ acc then acc else acc ++ [x]) []

/- ===================== Helper lemmas ===================== -/

theorem hasPrefixL_append (l r : List Char) : hasPrefixL l (l ++ r) = true := by
  induction l with
  | nil => rfl
  | cons a as ih => simp [hasPrefixL, ih]

theorem strStartsWith_append (p b : String) : strStartsWith (p ++ b) p = true := by
  have h : (p ++ b).toList = p.toList ++ b.toList := String.data_append p b
  simp [strStartsWith, h, hasPrefixL_append]

theorem request_trace_some (t : String) (fo : HttpRequest → JsResponse)
    (url : String) (opts : RequestOptions) :
    (request (some t) fo url opts).1 = [mkRequest t url opts] := by
  unfold request
  cases h : parseResponseBody (fo (mkRequest t url opts)) <;> simp [h]
  split <;> rfl

/- ===================== Claim C2 ===================== -/

/-- A 2xx response declaring a JSON content type whose body fails to parse:
`res.json()`'s promise rejects while `res.text()` would have yielded the
raw text. -/
def badJsonResponse : JsResponse :=
  { ok := true, status := 200, contentType := "application/json"
    jsonResult := .error "Unexpected token o in JSON at position 1"
    textResult := "not json" }

/-- C2: the claim states that a body-parse failure never propagates — the
function is supposed to fall back to raw text so the request engine fails
only on a non-2xx status. On the code this is FALSE: `res.json()` is
returned from the `try` block without `await`, so its rejection bypasses the
`catch` and `parseResponseBody` rejects; `await parseResponseBody(response)`
in `request` then re-raises it, failing the request on a 2xx response purely
because of body shape. The raw-text fallback (`parseResponseBodyCatchBlock`)
is never taken. -/
theorem parseResponseBody_propagates_rejection :
    parseResponseBody badJsonResponse
      = .error "Unexpected token o in JSON at position 1"
    ∧ parseResponseBody badJsonResponse ≠ parseResponseBodyCatchBlock badJsonResponse
    ∧ request (some "tok") (fun _ => badJsonResponse) "/user" {}
      = ([mkRequest "tok" "/user" {}],
         .error (.bodyRejection "Unexpected token o in JSON at position 1")) := by
  refine ⟨by decide, by decide, by decide⟩

/- ===================== Claim C6 ===================== -/

/-- C6: every comment body submitted by `add_issue_comment` is exactly the
fixed provenance marker `'[AI] Generated using MCP\n\n'` followed by the
caller's text, for every caller-supplied body string (and hence begins with
the marker). -/
theorem addIssueComment_marker (t : String) (fo : HttpRequest → JsResponse)
    (owner repo : String) (n : Nat) (body : String) :
    ((addIssueComment (some t) fo owner repo n body).1.map (·.body))
      = [some [("body", AI_COMMENT_IDENTIFIER ++ body)]]
    ∧ strStartsWith (AI_COMMENT_IDENTIFIER ++ body) AI_COMMENT_IDENTIFIER = true := by
  refine ⟨?_, strStartsWith_append _ _⟩
  unfold addIssueComment
  rw [request_trace_some]
  rfl

/- ===================== Claim C7 ===================== -/

/-- C7: when every optional field is omitted, `update_issue` and
`update_pull_request` dispatch no request (empty trace) and return the
"Nothing to update" text. -/
theorem update_handlers_nothing_to_update (token : Option String)
    (fo : HttpRequest → JsResponse) (owner repo : String) (n m : Nat) :
    updateIssueHandler token fo owner repo n none none none
      = ([], .nothingToUpdate
          "⚠️ Nothing to update. Please specify at least one field (title, body, or state).")
    ∧ updatePullRequestHandler token fo owner repo m none none none none
      = ([], .nothingToUpdate "⚠️ Nothing to update. Please specify at least one field.") :=
  ⟨rfl, rfl⟩

/- ===================== Claim C10 ===================== -/

/-- Replaces an empty-string argument by an omitted one (a falsy optional
field is kept only when truthy). Used to state that the handlers treat
`""` exactly like `undefined`. -/
def squashEmpty (x : Option String) : Option String :=
  if jsTruthy x then x else none

theorem jsTruthy_squashEmpty (x : Option String) :
    jsTruthy (squashEmpty x) = jsTruthy x := by
  unfold squashEmpty
  by_cases h : jsTruthy x
  · rw [if_pos h]
  · rw [if_neg h]
    simp only [Bool.not_eq_true] at h
    rw [h]
    rfl

theorem issueUpdatesPayload_squash (t b s : Option String) :
    issueUpdatesPayload (squashEmpty t) (squashEmpty b) (squashEmpty s)
      = issueUpdatesPayload t b s := by
  unfold issueUpdatesPayload
  rw [jsTruthy_squashEmpty, jsTruthy_squashEmpty, jsTruthy_squashEmpty]
  by_cases ht : jsTruthy t <;> by_cases hb : jsTruthy b <;> by_cases hs : jsTruthy s <;>
    simp [ht, hb, hs, squashEmpty]

theorem prUpdatesPayload_squash (t b s bs : Option String) :
    prUpdatesPayload (squashEmpty t) (squashEmpty b) (squashEmpty s) (squashEmpty bs)
      = prUpdatesPayload t b s bs := by
  unfold prUpdatesPayload
  rw [jsTruthy_squashEmpty, jsTruthy_squashEmpty, jsTruthy_squashEmpty, jsTruthy_squashEmpty]
  by_cases ht : jsTruthy t <;> by_cases hb : jsTruthy b <;> by_cases hs : jsTruthy s <;>
    by_cases hbs : jsTruthy bs <;> simp [ht, hb, hs, hbs, squashEmpty]

/-- C10: in both update handlers an optional field supplied as `""` behaves
exactly as if it were omitted — the handler's entire observable behaviour
(trace and outcome) is invariant under replacing empty strings by omissions,
so an empty field is excluded from the PATCH payload and can never be sent to
clear a field; when every supplied field is empty, the handler short-circuits
with the "Nothing to update" text and an empty trace; and when a non-empty
field accompanies an empty one, the dispatched payload carries only the
non-empty field. -/
theorem update_handlers_empty_as_omitted (token : Option String) (tk : String)
    (fo : HttpRequest → JsResponse) (owner repo : String) (n m : Nat)
    (t b s bs : Option String) (bv : String) (hbv : bv ≠ "") :
    (updateIssueHandler token fo owner repo n t b s
      = updateIssueHandler token fo owner repo n (squashEmpty t) (squashEmpty b) (squashEmpty s))
    ∧ (updatePullRequestHandler token fo owner repo m t b s bs
      = updatePullRequestHandler token fo owner repo m
          (squashEmpty t) (squashEmpty b) (squashEmpty s) (squashEmpty bs))
    ∧ ((t = none ∨ t = some "") → (b = none ∨ b = some "") → (s = none ∨ s = some "") →
        updateIssueHandler token fo owner repo n t b s
          = ([], .nothingToUpdate
              "⚠️ Nothing to update. Please specify at least one field (title, body, or state)."))
    ∧ ((t = none ∨ t = some "") → (b = none ∨ b = some "") → (s = none ∨ s = some "") →
        (bs = none ∨ bs = some "") →
        updatePullRequestHandler token fo owner repo m t b s bs
          = ([], .nothingToUpdate "⚠️ Nothing to update. Please specify at least one field."))
    ∧ ((updateIssueHandler (some tk) fo owner repo n (some "") (some bv) none).1.map (·.body)
        = [some [("body", bv)]]) := by
  refine ⟨?_, ?_, ?_, ?_, ?_⟩
  · unfold updateIssueHandler
    rw [jsTruthy_squashEmpty, jsTruthy_squashEmpty, jsTruthy_squashEmpty,
        issueUpdatesPayload_squash]
  · unfold updatePullRequestHandler
    rw [jsTruthy_squashEmpty, jsTruthy_squashEmpty, jsTruthy_squashEmpty,
        jsTruthy_squashEmpty, prUpdatesPayload_squash]
  · rintro (rfl | rfl) (rfl | rfl) (rfl | rfl) <;> rfl
  · rintro (rfl | rfl) (rfl | rfl) (rfl | rfl) (rfl | rfl) <;> rfl
  · have hcond : (!jsTruthy (some "") && !jsTruthy (some bv) && !jsTruthy none) = false := by
      simp [jsTruthy, hbv]
    have hpl : issueUpdatesPayload (some "") (some bv) none = [("body", bv)] := by
      simp [issueUpdatesPayload, jsTruthy, hbv]
    have hreq := request_trace_some tk fo
      ("/repos/" ++ owner ++ "/" ++ repo ++ "/issues/" ++ toString n)
      { method := some "PATCH", body := some (issueUpdatesPayload (some "") (some bv) none) }
    unfold updateIssueHandler updateIssue
    rw [hcond]
    simp only [Bool.false_eq_true, if_false]
    rcases hr : request (some tk) fo
        ("/repos/" ++ owner ++ "/" ++ repo ++ "/issues/" ++ toString n)
        { method := some "PATCH", body := some (issueUpdatesPayload (some "") (some bv) none) }
      with ⟨tr, r⟩
    rw [hr] at hreq
    simp only at hreq
    cases r <;> simp [hreq, mkRequest, hpl]

/-- Witness for `update_handlers_empty_as_omitted` at concrete inputs. -/
theorem update_handlers_empty_as_omitted_witness :
    ("x" : String) ≠ ""
    ∧ updateIssueHandler none (fun _ => badJsonResponse) "o" "r" 1
        (some "") (some "") (some "")
      = ([], .nothingToUpdate
          "⚠️ Nothing to update. Please specify at least one field (title, body, or state).") :=
  ⟨by decide,
    (update_handlers_empty_as_omitted none "tk" (fun _ => badJsonResponse) "o" "r" 1 2
      (some "") (some "") (some "") (some "") "x" (by decide)).2.2.1
      (Or.inr rfl) (Or.inr rfl) (Or.inr rfl)⟩

/- ===================== Header lookup lemmas ===================== -/

theorem lookupStr_objSet_self {β : Type} (m : List (String × β)) (k : String) (v : β) :
    lookupStr (objSet m k v) k = some v := by
  induction m with
  | nil => simp [objSet, lookupStr]
  | cons p rest ih =>
    rcases p with ⟨k', v'⟩
    by_cases h : k' = k <;> simp [objSet, lookupStr, h, ih]

theorem lookupStr_objSet_ne {β : Type} (m : List (String × β)) (k : String) (v : β)
    (k' : String) (h : k' ≠ k) : lookupStr (objSet m k v) k' = lookupStr m k' := by
  have h' : k ≠ k' := Ne.symm h
  induction m with
  | nil => simp [objSet, lookupStr, h']
  | cons p rest ih =>
    rcases p with ⟨k0, v0⟩
    by_cases h0 : k0 = k
    · subst h0
      simp [objSet, lookupStr, h']
    · simp [objSet, lookupStr, h0, ih]

theorem lookupStr_objSet_isSome {β : Type} (m : List (String × β)) (k : String) (v : β)
    (k' : String) (h : (lookupStr m k').isSome = true) :
    (lookupStr (objSet m k v) k').isSome = true := by
  by_cases hk : k' = k
  · subst hk
    rw [lookupStr_objSet_self]
    rfl
  · rw [lookupStr_objSet_ne m k v k' hk]
    exact h

theorem lookupStr_objSpread_not_mem {β : Type} (extra : List (String × β)) :
    ∀ (base : List (String × β)) (k : String), k ∉ extra.map Prod.fst →
      lookupStr (objSpread base extra) k = lookupStr base k := by
  induction extra with
  | nil => intro base k _; rfl
  | cons e es ih =>
    intro base k hk
    simp only [List.map_cons, List.mem_cons] at hk
    push_neg at hk
    have : objSpread base (e :: es) = objSpread (objSet base e.1 e.2) es := rfl
    rw [this, ih _ k hk.2, lookupStr_objSet_ne _ _ _ _ hk.1]

theorem lookupStr_objSpread_mem {β : Type} (extra : List (String × β)) :
    ∀ (base : List (String × β)) (k : String) (v : β),
      (extra.map Prod.fst).Nodup → (k, v) ∈ extra →
      lookupStr (objSpread base extra) k = some v := by
  induction extra with
  | nil => intro base k v _ hmem; cases hmem
  | cons e es ih =>
    intro base k v hnd hmem
    simp only [List.map_cons, List.nodup_cons] at hnd
    have : objSpread base (e :: es) = objSpread (objSet base e.1 e.2) es := rfl
    rw [this]
    rcases List.mem_cons.mp hmem with rfl | hmem'
    · have hk : k ∉ es.map Prod.fst := hnd.1
      rw [lookupStr_objSpread_not_mem es _ k hk, lookupStr_objSet_self]
    · exact ih _ k v hnd.2 hmem'

theorem lookupStr_objSpread_isSome {β : Type} (extra : List (String × β)) :
    ∀ (base : List (String × β)) (k : String),
      (lookupStr base k).isSome = true →
      (lookupStr (objSpread base extra) k).isSome = true := by
  induction extra with
  | nil => intro base k h; exact h
  | cons e es ih =>
    intro base k h
    have : objSpread base (e :: es) = objSpread (objSet base e.1 e.2) es := rfl
    rw [this]
    exact ih _ k (lookupStr_objSet_isSome _ _ _ _ h)

/- ===================== Claim C3 ===================== -/

/-- A trivial one-page server used for the C3 counterexample: a successful
array response with no `next` link. -/
def onePageServer : String → PageResponse Nat :=
  fun _ => { ok := true, status := 200, body := .ok (.arr [5]), next := none }

/-- C3 counterexample: with no credential held (`token = none`), the claim
says every page request of the paginated path fails with an authentication
error before any network request is sent. On the code this is FALSE: the
pagination loop dispatches the page request (trace length 1) and succeeds —
its `if (this.token)` has no `else throw`, it merely omits the header. -/
theorem requestPaginated_no_auth_guard_cex :
    (requestPaginated none onePageServer "/repos/o/r/commits" {} 2).1.length = 1
    ∧ (requestPaginated none onePageServer "/repos/o/r/commits" {} 2).2
      = .ok [5] := by
  refine ⟨by decide, by decide⟩

/-- Every request dispatched by the pagination loop carries the header object
`pagHeaders token opts` (the fixed headers plus caller spread, plus the
bearer header exactly when a token is held). -/
theorem paginateGo_trace_headers {α : Type} (token : Option String)
    (server : String → PageResponse α) (opts : PagOptions) :
    ∀ (fuel : Nat) (url : String) (pc : Nat) (acc : List α)
      (req : HttpRequest),
      req ∈ (paginateGo token server opts fuel url pc acc).1 →
      req.headers = pagHeaders token opts := by
  intro fuel
  induction fuel with
  | zero =>
    intro url pc acc req h
    simp [paginateGo] at h
  | succ f ih =>
    intro url pc acc req h
    unfold paginateGo at h
    by_cases hurl : url = ""
    · rw [if_pos hurl] at h; simp at h
    · rw [if_neg hurl] at h
      by_cases hcap : jsCapHit opts.max_pages (pc + 1) = true
      · rw [if_pos hcap] at h; simp at h
      · rw [if_neg hcap] at h
        simp only at h
        rcases hbody : (server (fullUrlOf url)).body with e | b
        · rw [hbody] at h
          simp at h
          rw [h]; rfl
        · rw [hbody] at h
          dsimp only at h
          by_cases hok : (server (fullUrlOf url)).ok = true
          · rw [if_pos hok] at h
            rcases b with items | v
            · dsimp only at h
              rcases List.mem_cons.mp h with rfl | h'
              · rfl
              · exact ih _ _ _ req h'
            · simp at h
              rw [h]; rfl
          · rw [if_neg hok] at h
            simp at h
            rw [h]; rfl

/-- C3, amended: with no credential held, the single-resource path does fail
with the authentication error before any request is dispatched (empty
trace); the paginated path, however, performs no credential check — every
page request it dispatches simply lacks the `Authorization` header (provided
the caller did not supply one herself). -/
theorem auth_guard_amended {α : Type} (fo : HttpRequest → JsResponse)
    (url : String) (opts : RequestOptions)
    (server : String → PageResponse α) (purl : String) (popts : PagOptions)
    (fuel : Nat)
    (hca : "Authorization" ∉ popts.headers.map Prod.fst) :
    request none fo url opts = ([], .error .authRequired)
    ∧ ∀ req ∈ (requestPaginated none server purl popts fuel).1,
        lookupStr req.headers "Authorization" = none := by
  refine ⟨rfl, ?_⟩
  intro req hreq
  have hh : req.headers = pagHeaders none popts :=
    paginateGo_trace_headers none server popts fuel _ 0 [] req hreq
  rw [hh]
  show lookupStr (objSpread baseHeaders popts.headers) "Authorization" = none
  rw [lookupStr_objSpread_not_mem popts.headers baseHeaders "Authorization" hca]
  rfl

/-- Witness for `auth_guard_amended` at concrete inputs. -/
theorem auth_guard_amended_witness :
    ("Authorization" ∉ (({} : PagOptions)).headers.map Prod.fst)
    ∧ request none (fun _ => badJsonResponse) "/user" {} = ([], .error .authRequired) :=
  ⟨by decide,
    (auth_guard_amended (fun _ => badJsonResponse) "/user" {} onePageServer
      "/repos/o/r/commits" {} 2 (by decide)).1⟩

/- ===================== Claim C8 ===================== -/

/-- C8 counterexample: the claim says that for EVERY header name supplied by
the caller, the caller's value wins on conflict. FALSE for `Authorization`:
the engine assigns `headers.Authorization = 'Bearer ' + token` AFTER the
caller spread, so a caller-supplied `Authorization: custom` is overwritten
by the bearer credential in the dispatched request. -/
theorem caller_override_loses_authorization_cex :
    ((request (some "t") (fun _ => badJsonResponse) "/x"
        { headers := [("Authorization", "custom")] }).1.map
      (fun r => lookupStr r.headers "Authorization"))
      = [some "Bearer t"]
    ∧ (some "Bearer t" : Option String) ≠ some "custom" := by
  refine ⟨by decide, by decide⟩

/-- C8, amended: every dispatched request's header object contains the four
fixed protocol headers (Accept, Content-Type, User-Agent,
X-GitHub-Api-Version); for every caller-supplied header name OTHER THAN
`Authorization` the caller's value wins over the engine's value on conflict;
`Authorization` itself is assigned by the engine after the spread, so it
always holds the bearer credential regardless of a caller-supplied value.
This holds both for the single-resource path and for every page request of
the paginated path. -/
theorem headers_fixed_and_overrides (t : String) (fo : HttpRequest → JsResponse)
    (url : String) (opts : RequestOptions)
    {α : Type} (server : String → PageResponse α) (purl : String)
    (popts : PagOptions) (fuel : Nat)
    (hnd : (opts.headers.map Prod.fst).Nodup)
    (hnd2 : (popts.headers.map Prod.fst).Nodup) :
    ((request (some t) fo url opts).1 = [mkRequest t url opts])
    ∧ (∀ name ∈ ["Accept", "Content-Type", "User-Agent", "X-GitHub-Api-Version"],
        (lookupStr (mkRequest t url opts).headers name).isSome = true)
    ∧ (∀ k v, (k, v) ∈ opts.headers → k ≠ "Authorization" →
        lookupStr (mkRequest t url opts).headers k = some v)
    ∧ lookupStr (mkRequest t url opts).headers "Authorization" = some ("Bearer " ++ t)
    ∧ (∀ req ∈ (requestPaginated (some t) server purl popts fuel).1,
        (∀ name ∈ ["Accept", "Content-Type", "User-Agent", "X-GitHub-Api-Version"],
          (lookupStr req.headers name).isSome = true)
        ∧ (∀ k v, (k, v) ∈ popts.headers → k ≠ "Authorization" →
            lookupStr req.headers k = some v)
        ∧ lookupStr req.headers "Authorization" = some ("Bearer " ++ t)) := by
  have hbase : ∀ name ∈ ["Accept", "Content-Type", "User-Agent", "X-GitHub-Api-Version"],
      (lookupStr baseHeaders name).isSome = true := by decide
  have hfix : ∀ (extra : List (String × String)),
      ∀ name ∈ ["Accept", "Content-Type", "User-Agent", "X-GitHub-Api-Version"],
      (lookupStr (objSet (objSpread baseHeaders extra) "Authorization" ("Bearer " ++ t)) name).isSome
        = true := by
    intro extra name hname
    have hne : name ≠ "Authorization" := by
      simp only [List.mem_cons, List.not_mem_nil, or_false] at hname
      rcases hname with rfl | rfl | rfl | rfl <;> decide
    rw [lookupStr_objSet_ne _ _ _ _ hne]
    exact lookupStr_objSpread_isSome extra baseHeaders name (hbase name hname)
  have hwin : ∀ (extra : List (String × String)), (extra.map Prod.fst).Nodup →
      ∀ k v, (k, v) ∈ extra → k ≠ "Authorization" →
      lookupStr (objSet (objSpread baseHeaders extra) "Authorization" ("Bearer " ++ t)) k
        = some v := by
    intro extra hnd' k v hmem hk
    rw [lookupStr_objSet_ne _ _ _ _ hk]
    exact lookupStr_objSpread_mem extra baseHeaders k v hnd' hmem
  refine ⟨request_trace_some t fo url opts, ?_, ?_, ?_, ?_⟩
  · exact hfix opts.headers
  · exact hwin opts.headers hnd
  · exact lookupStr_objSet_self _ _ _
  · intro req hreq
    have hh : req.headers = pagHeaders (some t) popts :=
      paginateGo_trace_headers (some t) server popts fuel _ 0 [] req hreq
    rw [hh]
    exact ⟨hfix popts.headers, hwin popts.headers hnd2, lookupStr_objSet_self _ _ _⟩

/-- Witness for `headers_fixed_and_overrides` at concrete inputs. -/
theorem headers_fixed_and_overrides_witness :
    ((([("X-Test", "1")] : List (String × String)).map Prod.fst).Nodup
      ∧ (([] : List (String × String)).map Prod.fst).Nodup)
    ∧ lookupStr
        (mkRequest "t" "/x" { headers := [("X-Test", "1")] }).headers "Authorization"
      = some ("Bearer " ++ "t") :=
  ⟨⟨by decide, by decide⟩,
    (headers_fixed_and_overrides "t" (fun _ => badJsonResponse) "/x"
      { headers := [("X-Test", "1")] } onePageServer "/y" {} 2
      (by decide) (by decide)).2.2.2.1⟩

/- ===================== Claim C1 ===================== -/

/-- Sum of `additions` over one detail's file entries (zero when the detail
has no `files` property, and zero for a degraded detail's empty list). -/
def detailAdditions (d : CommitDetail) : Nat :=
  ((d.files.getD []).map (·.additions)).sum

/-- Sum of `deletions` over one detail's file entries. -/
def detailDeletions (d : CommitDetail) : Nat :=
  ((d.files.getD []).map (·.deletions)).sum

/-- Sum of `changes` over one detail's file entries. -/
def detailChanges (d : CommitDetail) : Nat :=
  ((d.files.getD []).map (·.changes)).sum

theorem foldl_applyFile_totals (fs : List FileChange) :
    ∀ (acc : AggState),
      (fs.foldl applyFile acc).totalAdditions
        = acc.totalAdditions + (fs.map (·.additions)).sum
      ∧ (fs.foldl applyFile acc).totalDeletions
        = acc.totalDeletions + (fs.map (·.deletions)).sum
      ∧ (fs.foldl applyFile acc).totalChanges
        = acc.totalChanges + (fs.map (·.changes)).sum := by
  induction fs with
  | nil => intro acc; simp
  | cons f fs ih =>
    intro acc
    obtain ⟨i1, i2, i3⟩ := ih (applyFile acc f)
    refine ⟨?_, ?_, ?_⟩
    · rw [List.foldl_cons, i1]
      simp [applyFile, Nat.add_assoc]
    · rw [List.foldl_cons, i2]
      simp [applyFile, Nat.add_assoc]
    · rw [List.foldl_cons, i3]
      simp [applyFile, Nat.add_assoc]

theorem aggregateStep_totals (acc : AggState) (d : CommitDetail) :
    (aggregateStep acc d).totalAdditions = acc.totalAdditions + detailAdditions d
    ∧ (aggregateStep acc d).totalDeletions = acc.totalDeletions + detailDeletions d
    ∧ (aggregateStep acc d).totalChanges = acc.totalChanges + detailChanges d := by
  cases h : d.files with
  | none => simp [aggregateStep, h, detailAdditions, detailDeletions, detailChanges]
  | some fs =>
    obtain ⟨i1, i2, i3⟩ := foldl_applyFile_totals fs acc
    simp [aggregateStep, h, detailAdditions, detailDeletions, detailChanges, i1, i2, i3]

theorem foldl_aggregateStep_totals (ds : List CommitDetail) :
    ∀ (acc : AggState),
      (ds.foldl aggregateStep acc).totalAdditions
        = acc.totalAdditions + (ds.map detailAdditions).sum
      ∧ (ds.foldl aggregateStep acc).totalDeletions
        = acc.totalDeletions + (ds.map detailDeletions).sum
      ∧ (ds.foldl aggregateStep acc).totalChanges
        = acc.totalChanges + (ds.map detailChanges).sum := by
  induction ds with
  | nil => intro acc; simp
  | cons d ds ih =>
    intro acc
    obtain ⟨i1, i2, i3⟩ := ih (aggregateStep acc d)
    obtain ⟨s1, s2, s3⟩ := aggregateStep_totals acc d
    refine ⟨?_, ?_, ?_⟩ <;>
      simp [List.foldl_cons, i1, i2, i3, s1, s2, s3, Nat.add_assoc]

theorem filter_nondegraded_sum (f : CommitDetail → Nat)
    (hf : ∀ d, d.files = some [] → f d = 0) (ds : List CommitDetail) :
    ((ds.filter fun x => !decide (x.files = some [])).map f).sum = (ds.map f).sum := by
  induction ds with
  | nil => rfl
  | cons d ds ih =>
    by_cases h : d.files = some []
    · simp [List.filter_cons, h, ih, hf d h]
    · simp [List.filter_cons, h, ih]

/-- C1: the grand totals produced by `get_code_changes_by_date`'s
aggregation fold equal the sums of the corresponding per-file fields over
every file entry of every non-degraded detail (a degraded detail being one
whose files list is empty); inserting a degraded detail anywhere in the
input leaves the whole aggregation state — totals and every per-filename
record — unchanged; and the fold is a total function, so a degraded detail
never aborts the operation. -/
theorem aggregate_totals_and_degraded (ds l₁ l₂ : List CommitDetail)
    (d : CommitDetail) :
    ((aggregate ds).totalAdditions
        = ((ds.filter fun x => !decide (x.files = some [])).map detailAdditions).sum
      ∧ (aggregate ds).totalDeletions
        = ((ds.filter fun x => !decide (x.files = some [])).map detailDeletions).sum
      ∧ (aggregate ds).totalChanges
        = ((ds.filter fun x => !decide (x.files = some [])).map detailChanges).sum)
    ∧ (d.files = some [] → aggregate (l₁ ++ d :: l₂) = aggregate (l₁ ++ l₂)) := by
  constructor
  · obtain ⟨i1, i2, i3⟩ := foldl_aggregateStep_totals ds ⟨0, 0, 0, []⟩
    have e1 := filter_nondegraded_sum detailAdditions
      (fun x hx => by simp [detailAdditions, hx]) ds
    have e2 := filter_nondegraded_sum detailDeletions
      (fun x hx => by simp [detailDeletions, hx]) ds
    have e3 := filter_nondegraded_sum detailChanges
      (fun x hx => by simp [detailChanges, hx]) ds
    refine ⟨?_, ?_, ?_⟩
    · unfold aggregate
      rw [i1]
      simp [e1]
    · unfold aggregate
      rw [i2]
      simp [e2]
    · unfold aggregate
      rw [i3]
      simp [e3]
  · intro h
    have hstep : ∀ acc : AggState, aggregateStep acc d = acc := by
      intro acc; simp [aggregateStep, h]
    unfold aggregate
    rw [List.foldl_append, List.foldl_append, List.foldl_cons, hstep]

/-- Witness for `aggregate_totals_and_degraded` at concrete inputs. -/
theorem aggregate_totals_and_degraded_witness :
    (({ sha := "d", message := "m", authorName := "a", authorDate := "t"
        files := some [] } : CommitDetail).files = some [])
    ∧ aggregate
        ([{ sha := "c1", message := "m1", authorName := "a", authorDate := "t"
            files := some [⟨"f.txt", 3, 1, 4, "modified"⟩] }]
          ++ { sha := "d", message := "m", authorName := "a", authorDate := "t"
               files := some [] } :: [])
      = aggregate
        ([{ sha := "c1", message := "m1", authorName := "a", authorDate := "t"
            files := some [⟨"f.txt", 3, 1, 4, "modified"⟩] }] ++ []) :=
  ⟨rfl,
    (aggregate_totals_and_degraded []
      [{ sha := "c1", message := "m1", authorName := "a", authorDate := "t"
         files := some [⟨"f.txt", 3, 1, 4, "modified"⟩] }] []
      { sha := "d", message := "m", authorName := "a", authorDate := "t"
        files := some [] }).2 rfl⟩

/- ===================== Claim C5 ===================== -/

theorem fetchCommitDetails_eq_map (step : Commit → CommitDetail) (l : List Commit) :
    fetchCommitDetails step l = l.map step := by
  induction l using fetchCommitDetails.induct step with
  | case1 => simp [fetchCommitDetails]
  | case2 c rest ih =>
    rw [fetchCommitDetails, ih, ← List.map_append, List.take_append_drop]

/-- C5: when every per-commit detail fetch fails, the batched fan-out of
`get_code_changes_by_date` still completes (it is a total function) and
produces exactly one degraded record per input commit — the original commit
reference extended with an empty files list — in input order. -/
theorem all_failed_fanout_degrades (fetchCommit : String → Except GHError CommitDetail)
    (commits : List Commit) (hne : commits ≠ [])
    (hfail : ∀ c ∈ commits, ∃ e, fetchCommit c.sha = .error e) :
    fetchCommitDetails (getCommitOrDegrade fetchCommit) commits
      = commits.map degrade := by
  rw [fetchCommitDetails_eq_map]
  exact List.map_congr_left fun c hc => by
    obtain ⟨e, he⟩ := hfail c hc
    simp [getCommitOrDegrade, he]

/-- Witness for `all_failed_fanout_degrades` at concrete inputs. -/
theorem all_failed_fanout_degrades_witness :
    ([⟨"sha1", "msg", "alice", "2025-01-02"⟩] : List Commit) ≠ []
    ∧ fetchCommitDetails
        (getCommitOrDegrade fun _ => .error (.api 500 "boom"))
        [⟨"sha1", "msg", "alice", "2025-01-02"⟩]
      = [⟨"sha1", "msg", "alice", "2025-01-02"⟩].map degrade :=
  ⟨by decide,
    all_failed_fanout_degrades (fun _ => .error (.api 500 "boom"))
      [⟨"sha1", "msg", "alice", "2025-01-02"⟩] (by decide)
      (fun c _ => ⟨.api 500 "boom", rfl⟩)⟩

/- ===================== Claim C4 ===================== -/

theorem paginateGo_cap {α : Type} (token : Option String)
    (server : String → PageResponse α) (itemsOf : String → List α)
    (nextOf : String → String)
    (hserver : ∀ u, server u = ⟨true, 200, .ok (.arr (itemsOf u)), some (nextOf u)⟩)
    (hnext : ∀ u, nextOf u ≠ "")
    (N : Nat) (hN : 0 < N) (opts : PagOptions) (hcap : opts.max_pages = some N) :
    ∀ (fuel : Nat) (url : String) (pc : Nat) (acc : List α),
      url ≠ "" → pc ≤ N → N + 1 - pc ≤ fuel →
      (paginateGo token server opts fuel url pc acc).1.length = N - pc
      ∧ ∃ items, (paginateGo token server opts fuel url pc acc).2 = .ok items := by
  intro fuel
  induction fuel with
  | zero =>
    intro url pc acc hurl hpc hfuel
    omega
  | succ f ih =>
    intro url pc acc hurl hpc hfuel
    rcases Nat.lt_or_ge pc N with hlt | hge
    · have hcap' : jsCapHit opts.max_pages (pc + 1) = false := by
        simp [jsCapHit, hcap]
        omega
      have hresp := hserver (fullUrlOf url)
      obtain ⟨ihl, items, ihr⟩ := ih (nextOf (fullUrlOf url)) (pc + 1)
        (acc ++ itemsOf (fullUrlOf url)) (hnext _) (by omega) (by omega)
      unfold paginateGo
      rw [if_neg hurl]
      dsimp only
      rw [hcap']
      simp only [Bool.false_eq_true, if_false]
      rw [hresp]
      dsimp only
      rw [if_pos rfl]
      simp only [Option.getD_some]
      constructor
      · rw [List.length_cons, ihl]
        omega
      · exact ⟨items, ihr⟩
    · have hpcN : pc = N := Nat.le_antisymm hpc hge
      have hcap' : jsCapHit opts.max_pages (pc + 1) = true := by
        simp [jsCapHit, hcap]
        omega
      unfold paginateGo
      rw [if_neg hurl]
      dsimp only
      rw [hcap']
      exact ⟨by simp [hpcN], acc, rfl⟩

/-- C4: with a positive page cap `max_pages = N` and a server whose every
response is a successful array page carrying a `next` link, `requestPaginated`
dispatches exactly `N` page requests (hence at most `N`) and terminates with
a successful result rather than an error — the cap breaks out of the loop
before the `N+1`-st fetch. Stated for every sufficiently large fuel, fuel
being the artificial bound on the unbounded `while` loop. -/
theorem requestPaginated_page_cap {α : Type} (token : Option String)
    (server : String → PageResponse α) (itemsOf : String → List α)
    (nextOf : String → String)
    (hserver : ∀ u, server u = ⟨true, 200, .ok (.arr (itemsOf u)), some (nextOf u)⟩)
    (hnext : ∀ u, nextOf u ≠ "")
    (N : Nat) (hN : 0 < N) (url : String) (opts : PagOptions)
    (hcap : opts.max_pages = some N) (fuel : Nat) (hfuel : N + 1 ≤ fuel) :
    (requestPaginated token server url opts fuel).1.length = N
    ∧ ∃ items, (requestPaginated token server url opts fuel).2 = .ok items := by
  have hurl0 : url ++ (if strIncludes url "?" then "&" else "?")
      ++ "per_page=" ++ toString opts.per_page ≠ "" := by
    intro h
    have hlen := congrArg String.length h
    rw [String.length_append, String.length_append, String.length_append] at hlen
    have h9 : ("per_page=" : String).length = 9 := by decide
    have h0 : ("" : String).length = 0 := rfl
    rw [h9, h0] at hlen
    omega
  have := paginateGo_cap token server itemsOf nextOf hserver hnext N hN opts hcap
    fuel (url ++ (if strIncludes url "?" then "&" else "?")
      ++ "per_page=" ++ toString opts.per_page) 0 [] hurl0 (by omega) (by omega)
  unfold requestPaginated
  dsimp only
  obtain ⟨h1, h2⟩ := this
  rw [Nat.sub_zero] at h1
  exact ⟨h1, h2⟩

/-- A server every response of which is a one-item array page linking to a
next page, used as witness input for the page-cap theorem. -/
def endlessServer : String → PageResponse Nat :=
  fun _ => { ok := true, status := 200, body := .ok (.arr [7]), next := some "/next" }

/-- Witness for `requestPaginated_page_cap` at concrete inputs. -/
theorem requestPaginated_page_cap_witness :
    (0 < 2 ∧ ({ max_pages := some 2 } : PagOptions).max_pages = some 2 ∧ 2 + 1 ≤ 4)
    ∧ (requestPaginated none endlessServer "/items" { max_pages := some 2 } 4).1.length = 2
    ∧ ∃ items, (requestPaginated none endlessServer "/items" { max_pages := some 2 } 4).2
        = .ok items :=
  ⟨⟨by decide, rfl, by decide⟩,
    requestPaginated_page_cap none endlessServer (fun _ => [7]) (fun _ => "/next")
      (fun _ => rfl) (fun _ => by show ("/next" : String) ≠ ""; decide) 2 (by decide) "/items"
      { max_pages := some 2 } rfl 4 (by decide)⟩

/- ===================== Claim C9 ===================== -/

theorem insertFile_keys (m : List (String × FileStat)) (f : FileChange) :
    (insertFile m f).map Prod.fst
      = if f.filename ∈ m.map Prod.fst then m.map Prod.fst
        else m.map Prod.fst ++ [f.filename] := by
  induction m with
  | nil => simp [insertFile]
  | cons p rest ih =>
    rcases p with ⟨k, st⟩
    by_cases h : k = f.filename
    · subst h
      simp [insertFile]
    · by_cases hm : f.filename ∈ rest.map Prod.fst
      · simp [insertFile, h, ih, hm, List.mem_cons, Ne.symm h]
      · simp [insertFile, h, ih, hm, List.mem_cons, Ne.symm h]

theorem foldl_insertFile_keys (fs : List FileChange) :
    ∀ (m : List (String × FileStat)),
      (fs.foldl insertFile m).map Prod.fst
        = (fs.map (·.filename)).foldl
            (fun acc x => if x ∈ acc then acc else acc ++ [x]) (m.map Prod.fst) := by
  induction fs with
  | nil => intro m; rfl
  | cons f fs ih =>
    intro m
    rw [List.foldl_cons, ih (insertFile m f), insertFile_keys]
    simp only [List.map_cons, List.foldl_cons]

theorem foldl_applyFile_fileMap (fs : List FileChange) :
    ∀ (acc : AggState), (fs.foldl applyFile acc).fileMap = fs.foldl insertFile acc.fileMap := by
  induction fs with
  | nil => intro acc; rfl
  | cons f fs ih =>
    intro acc
    rw [List.foldl_cons, List.foldl_cons, ih]
    rfl

theorem foldl_aggregateStep_fileMap (ds : List CommitDetail) :
    ∀ (acc : AggState),
      (ds.foldl aggregateStep acc).fileMap = (flatFiles ds).foldl insertFile acc.fileMap := by
  induction ds with
  | nil => intro acc; rfl
  | cons d ds ih =>
    intro acc
    have hstep : (aggregateStep acc d).fileMap
        = (d.files.getD []).foldl insertFile acc.fileMap := by
      cases h : d.files with
      | none => simp [aggregateStep, h]
      | some fs => simp [aggregateStep, h, foldl_applyFile_fileMap]
    rw [List.foldl_cons, ih, hstep, flatFiles, List.foldl_append]

theorem aggregate_fileMap (ds : List CommitDetail) :
    (aggregate ds).fileMap = (flatFiles ds).foldl insertFile [] := by
  unfold aggregate
  exact foldl_aggregateStep_fileMap ds ⟨0, 0, 0, []⟩

theorem filesArray_filenames (ds : List CommitDetail) :
    (filesArray ds).map (·.filename)
      = dedupFirst ((flatFiles ds).map (·.filename)) := by
  unfold filesArray dedupFirst
  rw [List.map_map]
  have hcomp : ((fun e : FileEntry => e.filename) ∘ fun p : String × FileStat =>
      (⟨p.1, p.2.additions, p.2.deletions, p.2.changes,
        String.intercalate ", " p.2.status⟩ : FileEntry)) = Prod.fst := rfl
  rw [hcomp, aggregate_fileMap, foldl_insertFile_keys]
  rfl

theorem byChangesDesc_trans : ∀ (a b c : FileEntry),
    byChangesDesc a b → byChangesDesc b c → byChangesDesc a c := by
  intro a b c h1 h2
  simp only [byChangesDesc, decide_eq_true_eq] at *
  omega

theorem byChangesDesc_total : ∀ (a b : FileEntry),
    byChangesDesc a b || byChangesDesc b a := by
  intro a b
  simp only [byChangesDesc, Bool.or_eq_true, decide_eq_true_eq]
  omega

/-- C9: the rendered file list of `get_code_changes_by_date` is sorted by
descending accumulated `changes` (pairwise), ties are stable — for every
changes-value the tied entries appear exactly in `filesArray` order — and
`filesArray` itself lists filenames in order of first appearance in the
commit-detail input, so two filenames with equal accumulated changes appear
in first-appearance order. -/
theorem sortedFilesArray_spec (ds : List CommitDetail) (c : Nat) :
    (sortedFilesArray ds).Pairwise (fun a b => b.changes ≤ a.changes)
    ∧ (sortedFilesArray ds).filter (fun e => e.changes == c)
        = (filesArray ds).filter (fun e => e.changes == c)
    ∧ (filesArray ds).map (·.filename)
        = dedupFirst ((flatFiles ds).map (·.filename)) := by
  refine ⟨?_, ?_, filesArray_filenames ds⟩
  · have h := List.sorted_mergeSort byChangesDesc_trans byChangesDesc_total (filesArray ds)
    unfold sortedFilesArray
    exact h.imp fun hab => by
      simpa [byChangesDesc, decide_eq_true_eq] using hab
  · have hmemc : ∀ e ∈ (filesArray ds).filter (fun e => e.changes == c),
        e.changes = c := by
      intro e he
      have := List.of_mem_filter he
      simpa using this
    have hpw : ((filesArray ds).filter (fun e => e.changes == c)).Pairwise
        (fun a b => byChangesDesc a b = true) :=
      List.pairwise_of_forall_mem_list fun a ha b hb => by
        simp [byChangesDesc, hmemc a ha, hmemc b hb]
    have hsub : List.Sublist ((filesArray ds).filter (fun e => e.changes == c))
        (List.mergeSort (filesArray ds) byChangesDesc) :=
      List.sublist_mergeSort byChangesDesc_trans byChangesDesc_total hpw
        (List.filter_sublist (filesArray ds))
    have hperm : List.Perm
        ((List.mergeSort (filesArray ds) byChangesDesc).filter (fun e => e.changes == c))
        ((filesArray ds).filter (fun e => e.changes == c)) :=
      (List.mergeSort_perm (filesArray ds) byChangesDesc).filter _
    have hsub2 := hsub.filter (fun e => e.changes == c)
    have hself : ((filesArray ds).filter (fun e => e.changes == c)).filter
          (fun e => e.changes == c)
        = (filesArray ds).filter (fun e => e.changes == c) := by
      apply List.filter_eq_self.mpr
      intro a ha
      exact (List.mem_filter.mp ha).2
    rw [hself] at hsub2
    have hlen := hperm.length_eq.symm
    have heq := hsub2.eq_of_length hlen
    unfold sortedFilesArray
    exact heq.symm

end MCPGitHub
